import Mathlib

/-!
Verification of the geometry core of the dlsr repository
(src/hotpot/geometry/primiary.py), shallowly embedded over the reals.

Numpy/tensorflow 1-d float arrays are modelled as lists of reals; elementwise
kernels on equal-length arrays are modelled with zipWith/zipWith3; the numpy
broadcasting rule for binary ufuncs (equal lengths, or one side of length 1)
is modelled by npZip, returning none where numpy raises; a Python call that
always raises (an attribute lookup that cannot succeed) is modelled as an
Option-valued operation returning none.
-/

open Real

namespace DLSR

noncomputable section

/-- Python class tag carried by every value of the Cartesian3 hierarchy: the
source builds results either through the hard-coded base constructor
(Cartesian3, from_xyz, from_matrix) or through self.__class__ (fmap), so the
concrete class of a result is data. -/
inductive PtClass where
  | cartesian3
  | vector
  deriving DecidableEq

/-- Cartesian3: x/y/z coordinate arrays for N points at once, together with
the Python class of the object. -/
structure Cartesian3 where
  cls : PtClass
  x : List ℝ
  y : List ℝ
  z : List ℝ

/-- The Point3 invariant stated by the spec: the three coordinate arrays have
equal length. The source never checks it. -/
def Cartesian3.wf (p : Cartesian3) : Prop :=
  p.x.length = p.y.length ∧ p.y.length = p.z.length

instance (p : Cartesian3) : Decidable p.wf := by
  unfold Cartesian3.wf
  exact inferInstance

/-- Elementwise numpy binary ufunc on two 1-d arrays: equal lengths combine
pointwise, a length-1 array broadcasts against the other, any other
combination of lengths raises (none). -/
def npZip (op : ℝ → ℝ → ℝ) (a b : List ℝ) : Option (List ℝ) :=
  if a.length = b.length then some (List.zipWith op a b)
  else if a.length = 1 then some (b.map (fun v => op a.headI v))
  else if b.length = 1 then some (a.map (fun v => op v b.headI))
  else none

/-- The coercion applied by from_xyz to each component: np.array with dtype
float32 when the input is not already an ndarray. On the real-valued model the
dtype conversion is the identity on the stored values. -/
def convert_type_if_not_nparray : List ℝ → List ℝ := fun l => l

/-- fmap applies a whole-array function to each of the three coordinate
arrays, rebuilding through self.__class__ (the receiver class is kept). -/
def Cartesian3.fmap (p : Cartesian3) (func : List ℝ → List ℝ) : Cartesian3 :=
  ⟨p.cls, func p.x, func p.y, func p.z⟩

/-- from_xyz is a static method whose body constructs the base class
Cartesian3 directly (never self.__class__) and coerces each component
independently; it performs no length validation of any kind. -/
def Cartesian3.from_xyz (x y z : List ℝ) : Cartesian3 :=
  (Cartesian3.mk .cartesian3 x y z).fmap convert_type_if_not_nparray

/-- op_zip applies a binary ufunc to corresponding coordinate arrays and
repacks the result through the base-class factory from_xyz. -/
def Cartesian3.op_zip (p q : Cartesian3) (op : ℝ → ℝ → ℝ) : Option Cartesian3 := do
  let nx ← npZip op p.x q.x
  let ny ← npZip op p.y q.y
  let nz ← npZip op p.z q.z
  pure (Cartesian3.from_xyz nx ny nz)

/-- Addition of two Cartesian3 values: op_zip with np.add. -/
def Cartesian3.add (p q : Cartesian3) : Option Cartesian3 :=
  p.op_zip q (fun a b => a + b)

/-- Subtraction of two Cartesian3 values: op_zip with np.subtract. -/
def Cartesian3.sub (p q : Cartesian3) : Option Cartesian3 :=
  p.op_zip q (fun a b => a - b)

/-- Scalar division: the truediv operator builds a bare Cartesian3 from the
componentwise quotients. -/
def Cartesian3.div_scalar (p : Cartesian3) (c : ℝ) : Cartesian3 :=
  ⟨.cartesian3, p.x.map (fun v => v / c), p.y.map (fun v => v / c), p.z.map (fun v => v / c)⟩

/-- move adds a 3-component offset vector, one scalar per axis, building the
result with the base-class constructor. -/
def Cartesian3.move (p : Cartesian3) (v : ℝ × ℝ × ℝ) : Cartesian3 :=
  ⟨.cartesian3, p.x.map (fun a => a + v.1), p.y.map (fun a => a + v.2.1),
   p.z.map (fun a => a + v.2.2)⟩

/-- A 3 by 3 matrix, row major. -/
structure Mat3 where
  a00 : ℝ
  a01 : ℝ
  a02 : ℝ
  a10 : ℝ
  a11 : ℝ
  a12 : ℝ
  a20 : ℝ
  a21 : ℝ
  a22 : ℝ

/-- The rotation matrix about the X axis used by rotate_ypr. -/
def rotation_matrix_x (angle : ℝ) : Mat3 :=
  ⟨1, 0, 0, 0, Real.cos angle, -Real.sin angle, 0, Real.sin angle, Real.cos angle⟩

/-- The rotation matrix about the Y axis used by rotate_ypr. -/
def rotation_matrix_y (angle : ℝ) : Mat3 :=
  ⟨Real.cos angle, 0, Real.sin angle, 0, 1, 0, -Real.sin angle, 0, Real.cos angle⟩

/-- The rotation matrix about the Z axis used by rotate_ypr. -/
def rotation_matrix_z (angle : ℝ) : Mat3 :=
  ⟨Real.cos angle, -Real.sin angle, 0, Real.sin angle, Real.cos angle, 0, 0, 0, 1⟩

/-- One row of np.matmul(m, stack([x, y, z])): the dot product of a matrix row
against the 3 by N coordinate stack, per point. -/
def matRow (a b c : ℝ) (p : Cartesian3) : List ℝ :=
  List.zipWith3 (fun u v w => a * u + b * v + c * w) p.x p.y p.z

/-- from_matrix repacks the rows of a 3 by N matrix into x/y/z via from_xyz. -/
def Cartesian3.from_matrix (r0 r1 r2 : List ℝ) : Cartesian3 :=
  Cartesian3.from_xyz r0 r1 r2

/-- left_matmul: newPoint = m times the 3 by N coordinate stack, repacked. -/
def Cartesian3.left_matmul (p : Cartesian3) (m : Mat3) : Cartesian3 :=
  Cartesian3.from_matrix (matRow m.a00 m.a01 m.a02 p) (matRow m.a10 m.a11 m.a12 p)
    (matRow m.a20 m.a21 m.a22 p)

/-- rotate_ypr: left-multiplies the X matrix at the first angle, then the Y
matrix at the second, then the Z matrix at the third, exactly in this order. -/
def Cartesian3.rotate_ypr (p : Cartesian3) (rv : ℝ × ℝ × ℝ) : Cartesian3 :=
  ((p.left_matmul (rotation_matrix_x rv.1)).left_matmul
      (rotation_matrix_y rv.2.1)).left_matmul (rotation_matrix_z rv.2.2)

/-- distance_to: sqrt of the per-point sum of squared componentwise
differences; the difference itself goes through the broadcasting subtraction
and can raise. -/
def Cartesian3.distance_to (p q : Cartesian3) : Option (List ℝ) :=
  (p.sub q).map (fun d =>
    List.zipWith3 (fun a b c => Real.sqrt (a ^ 2 + b ^ 2 + c ^ 2)) d.x d.y d.z)

/-- The two-argument arctangent of tf.math.atan2 (C convention): the angle of
the point (x, y), in (-pi, pi], with atan2 0 0 = 0. -/
def atan2 (y x : ℝ) : ℝ :=
  if 0 < x then Real.arctan (y / x)
  else if x < 0 then
    if 0 ≤ y then Real.arctan (y / x) + π else Real.arctan (y / x) - π
  else if 0 < y then π / 2
  else if y < 0 then -(π / 2)
  else 0

/-- Spherical: r/theta/phi arrays, one entry per point. -/
structure Spherical where
  r : List ℝ
  theta : List ℝ
  phi : List ℝ

/-- to_spherical: r = sqrt(x²+y²+z²), theta = atan2(y, x),
phi = atan2(sqrt(x²+y²), z), elementwise. -/
def Cartesian3.to_spherical (p : Cartesian3) : Spherical :=
  ⟨List.zipWith3 (fun a b c => Real.sqrt (a ^ 2 + b ^ 2 + c ^ 2)) p.x p.y p.z,
   List.zipWith atan2 p.y p.x,
   List.zipWith3 (fun a b c => atan2 (Real.sqrt (a ^ 2 + b ^ 2)) c) p.x p.y p.z⟩

/-- to_cartesian: x = r sin(phi) cos(theta), y = r sin(phi) sin(theta),
z = r cos(phi), elementwise, built with the bare Cartesian3 constructor. -/
def Spherical.to_cartesian (s : Spherical) : Cartesian3 :=
  ⟨.cartesian3,
   List.zipWith3 (fun r θ φ => r * Real.sin φ * Real.cos θ) s.r s.theta s.phi,
   List.zipWith3 (fun r θ φ => r * Real.sin φ * Real.sin θ) s.r s.theta s.phi,
   List.zipWith (fun r φ => r * Real.cos φ) s.r s.phi⟩

/-- Segment: a pair of Cartesian3 endpoints. -/
structure Segment where
  fst : Cartesian3
  snd : Cartesian3

/-- seg_length: fst.distance_to(snd). -/
def Segment.seg_length (s : Segment) : Option (List ℝ) :=
  s.fst.distance_to s.snd

/-- direct_vector: (fst - snd) with every coordinate array divided elementwise
by the length array. -/
def Segment.direct_vector (s : Segment) : Option Cartesian3 := do
  let d ← s.fst.sub s.snd
  let len ← s.seg_length
  pure (d.fmap (fun l => List.zipWith (fun i n => i / n) l len))

/-- middle_point: (fst + snd) / 2. -/
def Segment.middle_point (s : Segment) : Option Cartesian3 :=
  (s.fst.add s.snd).map (fun p => p.div_scalar 2)

/-- Surface: four vertices stored as one Cartesian3. -/
structure Surface where
  vertices : Cartesian3

/-- from_xy_size: the four corners (±x/2, ±y/2, 0) in the fixed order
(+,+), (+,-), (-,+), (-,-), z identically zero. -/
def Surface.from_xy_size (x_length y_length : ℝ) : Surface :=
  ⟨⟨.cartesian3,
    [x_length / 2, x_length / 2, -x_length / 2, -x_length / 2],
    [y_length / 2, -y_length / 2, y_length / 2, -y_length / 2],
    [0, 0, 0, 0]⟩⟩

/-- The move method of Surface evaluates Cartesian3.from_tuple(move_vector),
but no from_tuple attribute is defined anywhere in the repository, so every
call raises AttributeError before touching the vertices: modelled as
unconditional failure. -/
def Surface.move (_s : Surface) (_v : ℝ × ℝ × ℝ) : Option Surface :=
  none

/-- The rotate_ypr method of Surface delegates to the vertex set. -/
def Surface.rotate_ypr (s : Surface) (rv : ℝ × ℝ × ℝ) : Surface :=
  ⟨s.vertices.rotate_ypr rv⟩

/-- Modelled from the spec: the translate operation of Surface is to
"delegate to the underlying Point3 vertex set", i.e. what the move method of
Surface was meant to do, realised through the existing Cartesian3.move. -/
def Surface.move_intended (s : Surface) (v : ℝ × ℝ × ℝ) : Surface :=
  ⟨s.vertices.move v⟩

/-- Box: a list of surfaces (six when built by from_size). -/
structure Box where
  surface : List Surface

/-- from_size: top/bottom xy-rectangles moved by ±z/2; front/back
xz-rectangles rotated about X by pi/2 then moved by ±y/2; left/right
yz-rectangles rotated about Z by pi/2, then about Y by pi/2, then moved by
±x/2. Every move call raises (see Surface.move), so the whole construction
fails. -/
def Box.from_size (x y z : ℝ) : Option Box := do
  let s1 ← (Surface.from_xy_size x y).move (0, 0, z / 2)
  let s2 ← (Surface.from_xy_size x y).move (0, 0, -z / 2)
  let s3 ← ((Surface.from_xy_size x z).rotate_ypr (π / 2, 0, 0)).move (0, y / 2, 0)
  let s4 ← ((Surface.from_xy_size x z).rotate_ypr (π / 2, 0, 0)).move (0, -y / 2, 0)
  let s5 ← (((Surface.from_xy_size y z).rotate_ypr (0, 0, π / 2)).rotate_ypr
      (0, π / 2, 0)).move (x / 2, 0, 0)
  let s6 ← (((Surface.from_xy_size y z).rotate_ypr (0, 0, π / 2)).rotate_ypr
      (0, π / 2, 0)).move (-x / 2, 0, 0)
  pure ⟨[s1, s2, s3, s4, s5, s6]⟩

/-- Modelled from the spec: from_size as intended, with the translation of
each face actually performed (Surface.move_intended in place of the raising
Surface.move), everything else verbatim from the source. -/
def Box.from_size_intended (x y z : ℝ) : Box :=
  ⟨[(Surface.from_xy_size x y).move_intended (0, 0, z / 2),
    (Surface.from_xy_size x y).move_intended (0, 0, -z / 2),
    ((Surface.from_xy_size x z).rotate_ypr (π / 2, 0, 0)).move_intended (0, y / 2, 0),
    ((Surface.from_xy_size x z).rotate_ypr (π / 2, 0, 0)).move_intended (0, -y / 2, 0),
    (((Surface.from_xy_size y z).rotate_ypr (0, 0, π / 2)).rotate_ypr
        (0, π / 2, 0)).move_intended (x / 2, 0, 0),
    (((Surface.from_xy_size y z).rotate_ypr (0, 0, π / 2)).rotate_ypr
        (0, π / 2, 0)).move_intended (-x / 2, 0, 0)]⟩

/-- The vertices view of a Box: the six vertex tensors concatenated along the
point axis and repacked through from_matrix. -/
def Box.vertices (b : Box) : Cartesian3 :=
  Cartesian3.from_matrix
    (b.surface.map (fun s => s.vertices.x)).flatten
    (b.surface.map (fun s => s.vertices.y)).flatten
    (b.surface.map (fun s => s.vertices.z)).flatten

/-- The Vector constructor converts each component to a float64 tensor
(identity on the stored values) and tags the object with the Vector class. -/
def Vector.make (x y z : List ℝ) : Cartesian3 :=
  ⟨.vector, x, y, z⟩

/-- The dot method of Vector: the elementwise products of corresponding
components, rebuilt as a Vector — not a reduced scalar. -/
def Vector.dot (v w : Cartesian3) : Option Cartesian3 := do
  let nx ← npZip (fun a b => a * b) v.x w.x
  let ny ← npZip (fun a b => a * b) v.y w.y
  let nz ← npZip (fun a b => a * b) v.z w.z
  pure (Vector.make nx ny nz)

/-! ### Shared helper lemmas -/

lemma npZip_eq_of_length (op : ℝ → ℝ → ℝ) {a b : List ℝ} (h : a.length = b.length) :
    npZip op a b = some (List.zipWith op a b) := by
  simp [npZip, h]

lemma op_zip_cls {p q u : Cartesian3} {op : ℝ → ℝ → ℝ}
    (h : Cartesian3.op_zip p q op = some u) : u.cls = PtClass.cartesian3 := by
  unfold Cartesian3.op_zip at h
  cases hx : npZip op p.x q.x with
  | none => rw [hx] at h; simp at h
  | some nx =>
    rw [hx] at h
    cases hy : npZip op p.y q.y with
    | none => rw [hy] at h; simp at h
    | some ny =>
      rw [hy] at h
      cases hz : npZip op p.z q.z with
      | none => rw [hz] at h; simp at h
      | some nz =>
        rw [hz] at h
        simp only [Option.bind_eq_bind, Option.some_bind, Option.pure_def,
          Option.some.injEq] at h
        rw [← h]
        rfl

/-! ### C5: elementwise dot product -/

/-- C5: for two Vector values of equal point count, dot returns a Vector
whose components are the elementwise products of the corresponding
components, not a reduced scalar inner product. -/
theorem c5_dot_elementwise (v w : Cartesian3) (hv : v.wf) (hw : w.wf)
    (hlen : v.x.length = w.x.length) :
    Vector.dot v w =
      some ⟨PtClass.vector, List.zipWith (fun a b => a * b) v.x w.x,
        List.zipWith (fun a b => a * b) v.y w.y,
        List.zipWith (fun a b => a * b) v.z w.z⟩ := by
  obtain ⟨hv1, hv2⟩ := hv
  obtain ⟨hw1, hw2⟩ := hw
  unfold Vector.dot
  rw [npZip_eq_of_length _ hlen, npZip_eq_of_length _ (by omega),
    npZip_eq_of_length _ (by omega)]
  rfl

/-- Witness for C5 at concrete vectors of length 2. -/
theorem c5_dot_elementwise_witness :
    (⟨PtClass.vector, [1, 2], [3, 4], [5, 6]⟩ : Cartesian3).wf ∧
    (⟨PtClass.vector, [7, 8], [9, 10], [11, 12]⟩ : Cartesian3).wf ∧
    Vector.dot ⟨PtClass.vector, [1, 2], [3, 4], [5, 6]⟩
        ⟨PtClass.vector, [7, 8], [9, 10], [11, 12]⟩ =
      some ⟨PtClass.vector,
        List.zipWith (fun a b => a * b) [1, 2] [7, 8],
        List.zipWith (fun a b => a * b) [3, 4] [9, 10],
        List.zipWith (fun a b => a * b) [5, 6] [11, 12]⟩ :=
  ⟨by decide, by decide,
   c5_dot_elementwise _ _ (by decide) (by decide) (by decide)⟩

/-! ### C6: shape mismatch on componentwise operations -/

/-- C6 (amended): combining two well-formed Cartesian3 values of unequal
point counts through a zipWith-based operation raises exactly when neither
count is 1; with neither count 1, add and sub both fail with no partial
result. -/
theorem c6_shape_mismatch (p q : Cartesian3) (hp : p.wf) (hq : q.wf)
    (hne : p.x.length ≠ q.x.length) (hp1 : p.x.length ≠ 1)
    (hq1 : q.x.length ≠ 1) :
    Cartesian3.add p q = none ∧ Cartesian3.sub p q = none := by
  obtain ⟨hp2, hp3⟩ := hp
  obtain ⟨hq2, hq3⟩ := hq
  have hx : ∀ op : ℝ → ℝ → ℝ, npZip op p.x q.x = none := by
    intro op
    simp [npZip, hne, hp1, hq1]
  constructor
  · unfold Cartesian3.add Cartesian3.op_zip
    rw [hx]
    rfl
  · unfold Cartesian3.sub Cartesian3.op_zip
    rw [hx]
    rfl

/-- Witness for C6 at point counts 2 and 3. -/
theorem c6_shape_mismatch_witness :
    (⟨PtClass.cartesian3, [1, 2], [3, 4], [5, 6]⟩ : Cartesian3).wf ∧
    (⟨PtClass.cartesian3, [1, 2, 3], [4, 5, 6], [7, 8, 9]⟩ : Cartesian3).wf ∧
    Cartesian3.add ⟨PtClass.cartesian3, [1, 2], [3, 4], [5, 6]⟩
      ⟨PtClass.cartesian3, [1, 2, 3], [4, 5, 6], [7, 8, 9]⟩ = none :=
  ⟨by decide, by decide,
   (c6_shape_mismatch _ _ (by decide) (by decide) (by decide) (by decide)
     (by decide)).1⟩

/-- C6 counterexample: two well-formed Cartesian3 values with unequal point
counts 2 and 1 combine successfully — numpy broadcasts the singleton, no
error is raised. -/
theorem c6_counterexample :
    ([1, 2] : List ℝ).length ≠ ([10] : List ℝ).length ∧
    Cartesian3.add ⟨PtClass.cartesian3, [1, 2], [3, 4], [5, 6]⟩
        ⟨PtClass.cartesian3, [10], [20], [30]⟩ =
      some ⟨PtClass.cartesian3, [11, 12], [23, 24], [35, 36]⟩ := by
  constructor
  · decide
  · norm_num [Cartesian3.add, Cartesian3.op_zip, npZip, Cartesian3.from_xyz,
      Cartesian3.fmap, convert_type_if_not_nparray, List.headI]

/-! ### C7: construction performs no length validation -/

/-- C7 (amended): from_xyz coerces each component independently and performs
no length validation at all — it always succeeds and returns exactly the
given components tagged with the base class. -/
theorem c7_no_validation (x y z : List ℝ) :
    Cartesian3.from_xyz x y z = Cartesian3.mk PtClass.cartesian3 x y z :=
  rfl

/-- C7 counterexample: from_xyz with components of lengths 2, 1, 1 succeeds
and produces a Cartesian3 whose components have unequal lengths; no
construction error path exists. -/
theorem c7_counterexample :
    Cartesian3.from_xyz [0, 0] [0] [0] =
      Cartesian3.mk PtClass.cartesian3 [0, 0] [0] [0] ∧
    ¬ (Cartesian3.from_xyz [0, 0] [0] [0]).wf := by
  constructor
  · rfl
  · decide

/-! ### C10: zipWith-based arithmetic loses the Vector subtype -/

/-- C10: for Vector operands, any successful add or sub returns an object of
the base Cartesian3 class (op_zip repacks through the static factory
from_xyz), while fmap rebuilds with the receiver class and keeps Vector. -/
theorem c10_subtype_loss (v w u : Cartesian3) (hv : v.cls = PtClass.vector)
    (_hw : w.cls = PtClass.vector) :
    (Cartesian3.add v w = some u → u.cls = PtClass.cartesian3) ∧
    (Cartesian3.sub v w = some u → u.cls = PtClass.cartesian3) ∧
    (∀ f, (v.fmap f).cls = PtClass.vector) := by
  refine ⟨fun h => op_zip_cls h, fun h => op_zip_cls h, fun f => ?_⟩
  rw [Cartesian3.fmap, ← hv]

/-- Witness for C10: a concrete Vector addition succeeds and the result is
tagged with the base class. -/
theorem c10_subtype_loss_witness :
    Cartesian3.add ⟨PtClass.vector, [1], [2], [3]⟩
        ⟨PtClass.vector, [10], [20], [30]⟩ =
      some ⟨PtClass.cartesian3, [11], [22], [33]⟩ ∧
    (⟨PtClass.cartesian3, [11], [22], [33]⟩ : Cartesian3).cls =
      PtClass.cartesian3 := by
  have hadd : Cartesian3.add ⟨PtClass.vector, [1], [2], [3]⟩
      ⟨PtClass.vector, [10], [20], [30]⟩ =
      some ⟨PtClass.cartesian3, [11], [22], [33]⟩ := by
    norm_num [Cartesian3.add, Cartesian3.op_zip, npZip, Cartesian3.from_xyz,
      Cartesian3.fmap, convert_type_if_not_nparray]
  exact ⟨hadd,
    (c10_subtype_loss _ _ _ rfl rfl).1 hadd⟩

/-! ### C2: Surface translation -/

/-- C2: every call of the move method of Surface fails — it evaluates the
attribute Cartesian3.from_tuple, which is defined nowhere in the repository —
whereas the intended translation (the existing Cartesian3.move applied to the
vertex set) adds the offset componentwise to every vertex and never fails. -/
theorem c2_surface_move (s : Surface) (v : ℝ × ℝ × ℝ) :
    Surface.move s v = none ∧
    (Surface.move_intended s v).vertices.x = s.vertices.x.map (fun a => a + v.1) ∧
    (Surface.move_intended s v).vertices.y = s.vertices.y.map (fun a => a + v.2.1) ∧
    (Surface.move_intended s v).vertices.z = s.vertices.z.map (fun a => a + v.2.2) :=
  ⟨rfl, rfl, rfl, rfl⟩

/-! ### C8: the concrete segment from (0,0,0) to (0,0,10) -/

/-- C8: for the segment with fst = (0,0,0) and snd = (0,0,10), seg_length is
10, the middle point is (0,0,5), and the direction vector is (0,0,-1) — fst
minus snd, each component divided by the length. -/
theorem c8_segment :
    Segment.seg_length ⟨⟨PtClass.cartesian3, [0], [0], [0]⟩,
        ⟨PtClass.cartesian3, [0], [0], [10]⟩⟩ = some [10] ∧
    Segment.middle_point ⟨⟨PtClass.cartesian3, [0], [0], [0]⟩,
        ⟨PtClass.cartesian3, [0], [0], [10]⟩⟩ =
      some ⟨PtClass.cartesian3, [0], [0], [5]⟩ ∧
    Segment.direct_vector ⟨⟨PtClass.cartesian3, [0], [0], [0]⟩,
        ⟨PtClass.cartesian3, [0], [0], [10]⟩⟩ =
      some ⟨PtClass.cartesian3, [0], [0], [-1]⟩ := by
  have h100 : Real.sqrt 100 = 10 := by
    rw [show (100 : ℝ) = 10 ^ 2 by norm_num,
      Real.sqrt_sq (by norm_num : (0 : ℝ) ≤ 10)]
  refine ⟨?_, ?_, ?_⟩
  · simp [Segment.seg_length, Cartesian3.distance_to, Cartesian3.sub,
      Cartesian3.op_zip, npZip, Cartesian3.from_xyz, Cartesian3.fmap,
      convert_type_if_not_nparray, List.zipWith3]
  · simp [Segment.middle_point, Cartesian3.add, Cartesian3.op_zip, npZip,
      Cartesian3.from_xyz, Cartesian3.fmap, convert_type_if_not_nparray,
      Cartesian3.div_scalar]
    norm_num
  · simp [Segment.direct_vector, Segment.seg_length, Cartesian3.distance_to,
      Cartesian3.sub, Cartesian3.op_zip, npZip, Cartesian3.from_xyz,
      Cartesian3.fmap, convert_type_if_not_nparray, List.zipWith3]

/-! ### C3: rotation order X then Y then Z -/

/-- Spec-side single rotation about the X axis: the standard matrix leaves x
fixed and mixes y and z with cosine and sine, elementwise over the batch,
repacked as a base-class point. -/
def specRotateX (a : ℝ) (p : Cartesian3) : Cartesian3 :=
  ⟨PtClass.cartesian3, p.x,
   List.zipWith (fun v w => Real.cos a * v - Real.sin a * w) p.y p.z,
   List.zipWith (fun v w => Real.sin a * v + Real.cos a * w) p.y p.z⟩

/-- Spec-side single rotation about the Y axis. -/
def specRotateY (a : ℝ) (p : Cartesian3) : Cartesian3 :=
  ⟨PtClass.cartesian3,
   List.zipWith (fun u w => Real.cos a * u + Real.sin a * w) p.x p.z,
   p.y,
   List.zipWith (fun u w => -Real.sin a * u + Real.cos a * w) p.x p.z⟩

/-- Spec-side single rotation about the Z axis. -/
def specRotateZ (a : ℝ) (p : Cartesian3) : Cartesian3 :=
  ⟨PtClass.cartesian3,
   List.zipWith (fun u v => Real.cos a * u - Real.sin a * v) p.x p.y,
   List.zipWith (fun u v => Real.sin a * u + Real.cos a * v) p.x p.y,
   p.z⟩

lemma rotate_ypr_decomposes (x : List ℝ) : ∀ (y z : List ℝ),
    x.length = y.length → y.length = z.length →
    ∀ (cl : PtClass) (a b c : ℝ),
    Cartesian3.rotate_ypr ⟨cl, x, y, z⟩ (a, b, c) =
      specRotateZ c (specRotateY b (specRotateX a ⟨cl, x, y, z⟩)) := by
  induction x with
  | nil =>
    intro y z hy hz cl a b c
    cases y with
    | cons _ _ => simp at hy
    | nil =>
      cases z with
      | cons _ _ => simp at hz
      | nil => rfl
  | cons u xt ih =>
    intro y z hy hz cl a b c
    cases y with
    | nil => simp at hy
    | cons v yt =>
      cases z with
      | nil => simp at hz
      | cons w zt =>
        have tail := ih yt zt (by simpa using hy) (by simpa using hz) cl a b c
        simp only [Cartesian3.rotate_ypr, Cartesian3.left_matmul,
          Cartesian3.from_matrix, Cartesian3.from_xyz, Cartesian3.fmap,
          convert_type_if_not_nparray, matRow, rotation_matrix_x,
          rotation_matrix_y, rotation_matrix_z, List.zipWith3, specRotateX,
          specRotateY, specRotateZ, List.zipWith, Cartesian3.mk.injEq,
          List.cons.injEq, true_and] at tail ⊢
        obtain ⟨hx, hy2, hz2⟩ := tail
        exact ⟨⟨by ring, hx⟩, ⟨by ring, hy2⟩, by ring, hz2⟩

/-- C3: for every well-formed point batch, rotate_ypr at angles (a, b, c) is
exactly the composition of the three standard single-axis rotations — X at a
first, its result fed into Y at b, that result fed into Z at c, each a
left-multiplication of the standard matrix against the coordinate stack — and
the order is not commutable: applying Z before X at right angles differs on
the point (0, 1, 0). -/
theorem c3_rotate_order :
    (∀ p : Cartesian3, p.wf → ∀ a b c : ℝ,
      Cartesian3.rotate_ypr p (a, b, c) =
        specRotateZ c (specRotateY b (specRotateX a p))) ∧
    Cartesian3.rotate_ypr ⟨PtClass.cartesian3, [0], [1], [0]⟩ (π / 2, 0, π / 2) ≠
      specRotateX (π / 2) (specRotateZ (π / 2)
        (specRotateY 0 ⟨PtClass.cartesian3, [0], [1], [0]⟩)) := by
  constructor
  · rintro ⟨cl, x, y, z⟩ ⟨h1, h2⟩ a b c
    exact rotate_ypr_decomposes x y z h1 h2 cl a b c
  · intro hcontra
    have hx := congrArg Cartesian3.x hcontra
    simp [Cartesian3.rotate_ypr, Cartesian3.left_matmul, Cartesian3.from_matrix,
      Cartesian3.from_xyz, Cartesian3.fmap, convert_type_if_not_nparray, matRow,
      rotation_matrix_x, rotation_matrix_y, rotation_matrix_z,
      List.zipWith3, specRotateX, specRotateY, specRotateZ,
      Real.cos_pi_div_two, Real.sin_pi_div_two] at hx

/-- Witness for C3 at a concrete two-point batch and angles 1, 2, 3. -/
theorem c3_rotate_order_witness :
    (⟨PtClass.cartesian3, [1, 0], [0, 2], [4, 5]⟩ : Cartesian3).wf ∧
    Cartesian3.rotate_ypr ⟨PtClass.cartesian3, [1, 0], [0, 2], [4, 5]⟩ (1, 2, 3) =
      specRotateZ 3 (specRotateY 2
        (specRotateX 1 ⟨PtClass.cartesian3, [1, 0], [0, 2], [4, 5]⟩)) :=
  ⟨by decide, c3_rotate_order.1 _ (by decide) 1 2 3⟩

/-! ### C1: the 2 by 2 by 2 box -/

/-- m is the maximum extent of the coordinate list l: an upper bound on every
entry that is itself attained. -/
def maxExtent (l : List ℝ) (m : ℝ) : Prop :=
  (∀ v ∈ l, v ≤ m) ∧ m ∈ l

lemma box222_vertices :
    (Box.from_size_intended 2 2 2).vertices =
      ⟨PtClass.cartesian3,
       [1, 1, -1, -1, 1, 1, -1, -1, 1, 1, -1, -1, 1, 1, -1, -1,
        1, 1, 1, 1, -1, -1, -1, -1],
       [1, -1, 1, -1, 1, -1, 1, -1, 1, 1, 1, 1, -1, -1, -1, -1,
        1, 1, -1, -1, 1, 1, -1, -1],
       [1, 1, 1, 1, -1, -1, -1, -1, 1, -1, 1, -1, 1, -1, 1, -1,
        1, -1, 1, -1, 1, -1, 1, -1]⟩ := by
  norm_num [Box.from_size_intended, Box.vertices, Surface.from_xy_size,
    Surface.move_intended, Surface.rotate_ypr, Cartesian3.move,
    Cartesian3.rotate_ypr, Cartesian3.left_matmul, Cartesian3.from_matrix,
    Cartesian3.from_xyz, Cartesian3.fmap, convert_type_if_not_nparray,
    matRow, rotation_matrix_x, rotation_matrix_y, rotation_matrix_z,
    List.zipWith3, Real.cos_pi_div_two, Real.sin_pi_div_two]

/-- C1: Box.from_size(2, 2, 2) fails outright in the source — each of its
Surface.move calls raises AttributeError on the missing Cartesian3.from_tuple
— while the intended construction (translation actually performed) yields a
vertices view of exactly 24 points whose maximum extent along each of the x,
y and z axes equals 1, half of each dimension. -/
theorem c1_box_vertices :
    Box.from_size 2 2 2 = none ∧
    (Box.from_size_intended 2 2 2).vertices.x.length = 24 ∧
    (Box.from_size_intended 2 2 2).vertices.y.length = 24 ∧
    (Box.from_size_intended 2 2 2).vertices.z.length = 24 ∧
    maxExtent (Box.from_size_intended 2 2 2).vertices.x 1 ∧
    maxExtent (Box.from_size_intended 2 2 2).vertices.y 1 ∧
    maxExtent (Box.from_size_intended 2 2 2).vertices.z 1 := by
  refine ⟨rfl, ?_, ?_, ?_, ?_, ?_, ?_⟩ <;> rw [box222_vertices]
  · rfl
  · rfl
  · rfl
  · exact ⟨by intro v hv; fin_cases hv <;> norm_num, by simp⟩
  · exact ⟨by intro v hv; fin_cases hv <;> norm_num, by simp⟩
  · exact ⟨by intro v hv; fin_cases hv <;> norm_num, by simp⟩

/-! ### C4: spherical round trip -/

lemma atan2_mul_sin_cos {k t : ℝ} (hk : 0 < k) (ht1 : -π < t) (ht2 : t ≤ π) :
    atan2 (k * Real.sin t) (k * Real.cos t) = t := by
  rcases lt_trichotomy (Real.cos t) 0 with hc | hc | hc
  · have hx : k * Real.cos t < 0 := mul_neg_of_pos_of_neg hk hc
    have hdiv : k * Real.sin t / (k * Real.cos t) = Real.tan t := by
      rw [mul_div_mul_left _ _ (ne_of_gt hk), Real.tan_eq_sin_div_cos]
    rcases le_or_lt 0 (Real.sin t) with hs | hs
    · have hy : 0 ≤ k * Real.sin t := mul_nonneg hk.le hs
      have ht0 : 0 ≤ t := by
        by_contra hlt
        push_neg at hlt
        exact absurd (Real.sin_neg_of_neg_of_neg_pi_lt hlt ht1) (not_lt.mpr hs)
      have htgt : π / 2 < t := by
        by_contra hle
        push_neg at hle
        exact absurd hc
          (not_lt.mpr (Real.cos_nonneg_of_neg_pi_div_two_le_of_le (by linarith) hle))
      have harct : Real.arctan (Real.tan t) = t - π := by
        rw [show Real.tan t = Real.tan (t - π) from (Real.tan_periodic.sub_eq t).symm]
        exact Real.arctan_tan (by linarith [Real.pi_pos]) (by linarith [Real.pi_pos])
      rw [atan2, if_neg (by linarith), if_pos hx, if_pos hy, hdiv, harct]
      ring
    · have hy : ¬ 0 ≤ k * Real.sin t := by
        push_neg
        exact mul_neg_of_pos_of_neg hk hs
      have ht0 : t < 0 := by
        by_contra hge
        push_neg at hge
        exact absurd (Real.sin_nonneg_of_nonneg_of_le_pi hge ht2) (not_le.mpr hs)
      have htlt : t < -(π / 2) := by
        by_contra hle
        push_neg at hle
        exact absurd hc
          (not_lt.mpr (Real.cos_nonneg_of_neg_pi_div_two_le_of_le hle (by linarith)))
      have harct : Real.arctan (Real.tan t) = t + π := by
        rw [show Real.tan t = Real.tan (t + π) from (Real.tan_periodic t).symm]
        exact Real.arctan_tan (by linarith [Real.pi_pos]) (by linarith [Real.pi_pos])
      rw [atan2, if_neg (by linarith), if_pos hx, if_neg hy, hdiv, harct]
      ring
  · obtain ⟨n, hn⟩ := Real.cos_eq_zero_iff.mp hc
    have hpi := Real.pi_pos
    have hlo : (-2 : ℝ) < 2 * (n : ℝ) + 1 := by nlinarith
    have hhi : 2 * (n : ℝ) + 1 ≤ 2 := by nlinarith
    have hlo2 : (-2 : ℤ) < 2 * n + 1 := by exact_mod_cast hlo
    have hhi2 : (2 : ℤ) * n + 1 ≤ 2 := by exact_mod_cast hhi
    have hn01 : n = 0 ∨ n = -1 := by omega
    rcases hn01 with rfl | rfl
    · have ht : t = π / 2 := by
        rw [hn]
        ring
      subst ht
      rw [atan2, Real.cos_pi_div_two, Real.sin_pi_div_two, mul_zero, mul_one,
        if_neg (lt_irrefl 0), if_neg (lt_irrefl 0), if_pos hk]
    · have ht : t = -(π / 2) := by
        rw [hn]
        push_cast
        ring
      subst ht
      rw [atan2]
      rw [Real.cos_neg, Real.sin_neg, Real.cos_pi_div_two, Real.sin_pi_div_two,
        mul_zero, mul_neg, mul_one]
      rw [if_neg (lt_irrefl 0), if_neg (lt_irrefl 0),
        if_neg (by simpa using not_lt.mpr (neg_nonpos_of_nonneg hk.le)),
        if_pos (by simpa using hk)]
  · have hx : 0 < k * Real.cos t := mul_pos hk hc
    have hb1 : -(π / 2) < t := by
      by_contra hle
      push_neg at hle
      have h1 : π / 2 ≤ -t := by linarith
      have h2 : -t ≤ π + π / 2 := by linarith
      have := Real.cos_nonpos_of_pi_div_two_le_of_le h1 h2
      rw [Real.cos_neg] at this
      exact absurd hc (not_lt.mpr this)
    have hb2 : t < π / 2 := by
      by_contra hle
      push_neg at hle
      exact absurd hc
        (not_lt.mpr (Real.cos_nonpos_of_pi_div_two_le_of_le hle (by linarith)))
    rw [atan2, if_pos hx, mul_div_mul_left _ _ (ne_of_gt hk),
      ← Real.tan_eq_sin_div_cos]
    exact Real.arctan_tan hb1 hb2

lemma roundtrip_r {r θ φ : ℝ} (hr : 0 < r) :
    Real.sqrt ((r * Real.sin φ * Real.cos θ) ^ 2 + (r * Real.sin φ * Real.sin θ) ^ 2 +
      (r * Real.cos φ) ^ 2) = r := by
  have hsum : (r * Real.sin φ * Real.cos θ) ^ 2 + (r * Real.sin φ * Real.sin θ) ^ 2 +
      (r * Real.cos φ) ^ 2 = r ^ 2 := by
    have e1 : (r * Real.sin φ * Real.cos θ) ^ 2 + (r * Real.sin φ * Real.sin θ) ^ 2 +
        (r * Real.cos φ) ^ 2 =
        (r * Real.sin φ) ^ 2 * (Real.sin θ ^ 2 + Real.cos θ ^ 2) +
          r ^ 2 * Real.cos φ ^ 2 := by ring
    rw [e1, Real.sin_sq_add_cos_sq, mul_one]
    have e2 : (r * Real.sin φ) ^ 2 + r ^ 2 * Real.cos φ ^ 2 =
        r ^ 2 * (Real.sin φ ^ 2 + Real.cos φ ^ 2) := by ring
    rw [e2, Real.sin_sq_add_cos_sq, mul_one]
  rw [hsum, Real.sqrt_sq hr.le]

lemma roundtrip_theta {r θ φ : ℝ} (hr : 0 < r) (hφ1 : 0 < φ) (hφ2 : φ < π)
    (hθ1 : -π < θ) (hθ2 : θ ≤ π) :
    atan2 (r * Real.sin φ * Real.sin θ) (r * Real.sin φ * Real.cos θ) = θ :=
  atan2_mul_sin_cos (mul_pos hr (Real.sin_pos_of_pos_of_lt_pi hφ1 hφ2)) hθ1 hθ2

lemma roundtrip_phi {r θ φ : ℝ} (hr : 0 < r) (hφ1 : 0 < φ) (hφ2 : φ < π) :
    atan2 (Real.sqrt ((r * Real.sin φ * Real.cos θ) ^ 2 +
      (r * Real.sin φ * Real.sin θ) ^ 2)) (r * Real.cos φ) = φ := by
  have hs : 0 < Real.sin φ := Real.sin_pos_of_pos_of_lt_pi hφ1 hφ2
  have hsum : (r * Real.sin φ * Real.cos θ) ^ 2 + (r * Real.sin φ * Real.sin θ) ^ 2 =
      (r * Real.sin φ) ^ 2 := by
    have e1 : (r * Real.sin φ * Real.cos θ) ^ 2 + (r * Real.sin φ * Real.sin θ) ^ 2 =
        (r * Real.sin φ) ^ 2 * (Real.sin θ ^ 2 + Real.cos θ ^ 2) := by ring
    rw [e1, Real.sin_sq_add_cos_sq, mul_one]
  rw [hsum, Real.sqrt_sq (mul_nonneg hr.le hs.le)]
  have := atan2_mul_sin_cos hr (t := φ) (by linarith [Real.pi_pos]) hφ2.le
  exact this

/-- C4 (amended): for every batched SphericalPoint whose entries have r > 0,
phi in (0, pi) and theta in (-pi, pi], to_cartesian followed by to_spherical
reproduces r, theta and phi exactly (in the real-valued model). -/
theorem c4_roundtrip (r : List ℝ) : ∀ (θ φ : List ℝ),
    r.length = θ.length → θ.length = φ.length →
    (∀ v ∈ r, 0 < v) → (∀ v ∈ φ, 0 < v ∧ v < π) →
    (∀ v ∈ θ, -π < v ∧ v ≤ π) →
    (Spherical.to_cartesian ⟨r, θ, φ⟩).to_spherical = ⟨r, θ, φ⟩ := by
  induction r with
  | nil =>
    intro θ φ h1 h2 _ _ _
    cases θ with
    | cons _ _ => simp at h1
    | nil =>
      cases φ with
      | cons _ _ => simp at h2
      | nil => rfl
  | cons a rt ih =>
    intro θ φ h1 h2 hr hφ hθ
    cases θ with
    | nil => simp at h1
    | cons t θt =>
      cases φ with
      | nil => simp at h2
      | cons f φt =>
        have tail := ih θt φt (by simpa using h1) (by simpa using h2)
          (fun v hv => hr v (List.mem_cons_of_mem _ hv))
          (fun v hv => hφ v (List.mem_cons_of_mem _ hv))
          (fun v hv => hθ v (List.mem_cons_of_mem _ hv))
        have ha := hr a (List.mem_cons_self _ _)
        have hf := hφ f (List.mem_cons_self _ _)
        have ht := hθ t (List.mem_cons_self _ _)
        simp only [Spherical.to_cartesian, Cartesian3.to_spherical,
          List.zipWith3, List.zipWith, Spherical.mk.injEq, List.cons.injEq] at tail ⊢
        obtain ⟨tr, tθ, tφ⟩ := tail
        exact ⟨⟨roundtrip_r ha, tr⟩, ⟨roundtrip_theta ha hf.1 hf.2 ht.1 ht.2, tθ⟩,
          roundtrip_phi ha hf.1 hf.2, tφ⟩

/-- Witness for C4 at the single point r = 1, theta = 0, phi = pi / 2. -/
theorem c4_roundtrip_witness :
    (∀ v ∈ ([1] : List ℝ), 0 < v) ∧ (∀ v ∈ ([π / 2] : List ℝ), 0 < v ∧ v < π) ∧
    (∀ v ∈ ([0] : List ℝ), -π < v ∧ v ≤ π) ∧
    (Spherical.to_cartesian ⟨[1], [0], [π / 2]⟩).to_spherical =
      ⟨[1], [0], [π / 2]⟩ := by
  have h1 : ∀ v ∈ ([1] : List ℝ), 0 < v := by
    intro v hv
    simp at hv
    simp [hv]
  have h2 : ∀ v ∈ ([π / 2] : List ℝ), 0 < v ∧ v < π := by
    intro v hv
    simp at hv
    subst hv
    constructor <;> linarith [Real.pi_pos]
  have h3 : ∀ v ∈ ([0] : List ℝ), -π < v ∧ v ≤ π := by
    intro v hv
    simp at hv
    subst hv
    constructor <;> linarith [Real.pi_pos]
  exact ⟨h1, h2, h3, c4_roundtrip [1] [0] [π / 2] rfl rfl h1 h2 h3⟩

/-- C4 counterexample: at r = 1, theta = 2 pi, phi = pi / 2 — a SphericalPoint
satisfying the stated hypotheses r > 0 and phi in (0, pi) — the round trip
does not reproduce theta: it returns 0, not 2 pi. -/
theorem c4_counterexample :
    (0 : ℝ) < 1 ∧ (0 < π / 2 ∧ π / 2 < π) ∧
    (Spherical.to_cartesian ⟨[1], [2 * π], [π / 2]⟩).to_spherical.theta ≠
      [2 * π] := by
  refine ⟨by norm_num, ⟨by linarith [Real.pi_pos], by linarith [Real.pi_pos]⟩, ?_⟩
  intro hcontra
  simp only [Spherical.to_cartesian, Cartesian3.to_spherical, List.zipWith3,
    List.zipWith, Real.sin_pi_div_two, Real.sin_two_pi, Real.cos_two_pi,
    mul_zero, mul_one, one_mul, List.cons.injEq, and_true] at hcontra
  rw [atan2, if_pos (by norm_num : (0 : ℝ) < 1)] at hcontra
  have : (0 : ℝ) = 2 * π := by
    simpa [Real.arctan_zero] using hcontra
  linarith [Real.pi_pos]

end

end DLSR
